import Mathlib

/-
Verification development for the safarnama repository
(src/safarnama/db.py, crawler.py, searcher.py).

The Python code is shallowly embedded: the SQL tables become Lean lists of
records, every handler method becomes a pure Lean function on those lists,
and library collaborators that the code only calls (regular-expression
search, urljoin, urlparse, robots checks, HTTP transports, the LLM
endpoint) are parameters of the embedding, so the theorems quantify over
their behaviour.
-/

set_option autoImplicit false

namespace Safarnama

/-
Frontier model (db.py, class URL / DBHandler URL methods).

A row of the `urls` table.  `url` is the primary key, `depth` and `status`
are NOT NULL, `content_type`, `summary`, `tags` are nullable.
-/
structure URLRow where
  url : String
  depth : Nat
  status : String
  content_type : Option String
  summary : Option String
  tags : Option String
deriving DecidableEq, Repr

/- The frontier store is the list of rows of the `urls` table, in insertion
order. -/
abbrev Frontier := List URLRow

/-- Number of rows whose primary key equals `url`. -/
def countUrl (db : Frontier) (url : String) : Nat :=
  (db.filter (fun r => r.url == url)).length

/-- First row whose primary key equals `url` (what `filter_by(url=url).first()`
returns). -/
def findUrl (db : Frontier) (url : String) : Option URLRow :=
  db.find? (fun r => r.url == url)

/-- DBHandler.insert_url (db.py lines 58-68): adds a fresh row; a duplicate
primary key raises an IntegrityError (a SQLAlchemyError), which is caught,
rolled back and logged, so the call is a silent no-op. -/
def insert_url (db : Frontier) (url : String) (depth : Nat) (status : String)
    (content_type : Option String) : Frontier :=
  if db.any (fun r => r.url == url) then db
  else db ++ [⟨url, depth, status, content_type, none, none⟩]

/-- DBHandler.update_url_status (db.py lines 70-82): looks up the first row
with this url and, if present, overwrites its status and content_type
(content_type is written unconditionally, also when None); if absent the
call does nothing. -/
def update_url_status (db : Frontier) (url : String) (status : String)
    (content_type : Option String) : Frontier :=
  match db with
  | [] => []
  | r :: rest =>
    if r.url == url then { r with status := status, content_type := content_type } :: rest
    else r :: update_url_status rest url status content_type

/-- DBHandler.update_page_info (db.py lines 84-96): same shape, writing
summary and tags of an existing row. -/
def update_page_info (db : Frontier) (url : String) (summary : String)
    (tags : String) : Frontier :=
  match db with
  | [] => []
  | r :: rest =>
    if r.url == url then { r with summary := some summary, tags := some tags } :: rest
    else r :: update_page_info rest url summary tags

/-- Helper for DBHandler.get_next_url: the first row with minimal depth,
i.e. what `order_by(URL.depth).first()` yields under a stable order. -/
def pickMinDepth : Frontier → Option URLRow
  | [] => none
  | r :: rest =>
    match pickMinDepth rest with
    | none => some r
    | some b => if b.depth < r.depth then some b else some r

/-- DBHandler.get_next_url (db.py lines 98-115): among rows with
status `to_visit` and depth ≤ max_depth, the one with smallest depth. -/
def get_next_url (db : Frontier) (max_depth : Nat) : Option (String × Nat) :=
  (pickMinDepth (db.filter
      (fun r => r.status == "to_visit" && r.depth ≤ max_depth))).map
    (fun r => (r.url, r.depth))

/- Basic lemmas about the frontier operations. -/

theorem countUrl_nil (url : String) : countUrl [] url = 0 := rfl

theorem countUrl_append (db1 db2 : Frontier) (url : String) :
    countUrl (db1 ++ db2) url = countUrl db1 url + countUrl db2 url := by
  simp [countUrl, List.filter_append]

theorem countUrl_eq_zero_iff (db : Frontier) (url : String) :
    countUrl db url = 0 ↔ db.any (fun r => r.url == url) = false := by
  simp [countUrl, List.length_eq_zero, List.filter_eq_nil_iff, List.any_eq_false]

theorem findUrl_append_right (db1 db2 : Frontier) (url : String)
    (h : countUrl db1 url = 0) :
    findUrl (db1 ++ db2) url = findUrl db2 url := by
  induction db1 with
  | nil => rfl
  | cons r rest ih =>
    have hr : (r.url == url) = false := by
      by_contra hc
      have : (r.url == url) = true := by
        cases hb : (r.url == url) with
        | false => exact absurd hb hc
        | true => rfl
      simp [countUrl, List.filter, this] at h
    have hrest : countUrl rest url = 0 := by
      simpa [countUrl, List.filter, hr] using h
    simp [findUrl, List.find?, hr] at ih ⊢
    exact ih hrest

/-- C5: enqueuing the same URL twice is idempotent — one row remains, with
the first insertion's depth and status; the second call changes nothing. -/
theorem insert_url_idempotent (db : Frontier) (url : String)
    (d1 d2 : Nat) (s1 s2 : String) (c1 c2 : Option String)
    (h : countUrl db url = 0) :
    insert_url (insert_url db url d1 s1 c1) url d2 s2 c2
        = insert_url db url d1 s1 c1 ∧
    countUrl (insert_url (insert_url db url d1 s1 c1) url d2 s2 c2) url = 1 ∧
    findUrl (insert_url (insert_url db url d1 s1 c1) url d2 s2 c2) url
        = some ⟨url, d1, s1, c1, none, none⟩ := by
  have hany : db.any (fun r => r.url == url) = false :=
    (countUrl_eq_zero_iff db url).mp h
  have hdb1 : insert_url db url d1 s1 c1 = db ++ [⟨url, d1, s1, c1, none, none⟩] := by
    simp [insert_url, hany]
  have hsecond : insert_url (insert_url db url d1 s1 c1) url d2 s2 c2
      = insert_url db url d1 s1 c1 := by
    rw [hdb1]
    simp [insert_url]
  refine ⟨hsecond, ?_, ?_⟩
  · rw [hsecond, hdb1, countUrl_append, h]
    simp [countUrl]
  · rw [hsecond, hdb1, findUrl_append_right db _ url h]
    simp [findUrl, List.find?]

/-- C5 witness: a concrete double insertion. -/
theorem insert_url_idempotent_witness :
    insert_url (insert_url [] "https://a.test/" 0 "to_visit" none)
        "https://a.test/" 3 "visited" (some "text/html")
      = insert_url [] "https://a.test/" 0 "to_visit" none ∧
    countUrl (insert_url (insert_url [] "https://a.test/" 0 "to_visit" none)
        "https://a.test/" 3 "visited" (some "text/html")) "https://a.test/" = 1 ∧
    findUrl (insert_url (insert_url [] "https://a.test/" 0 "to_visit" none)
        "https://a.test/" 3 "visited" (some "text/html")) "https://a.test/"
      = some ⟨"https://a.test/", 0, "to_visit", none, none, none⟩ :=
  insert_url_idempotent [] "https://a.test/" 0 3 "to_visit" "visited"
    none (some "text/html") (by decide)

/-
Backend registry model (db.py, class Instance / DBHandler instance methods).

Only the columns the modelled operations read or write are kept: `url`
(UNIQUE), `uptime`, `priority` and `sleep_until`.  The descriptive metadata
columns (version, tls, csp, ...) are never read by any modelled operation.
Timestamps are integers (seconds); the numeric width is immaterial here.
-/
structure Instance where
  url : String
  uptime : Option Int
  priority : Int
  sleep_until : Option Int
deriving DecidableEq, Repr

abbrev Registry := List Instance

/-- DBHandler.update_all_priorities (db.py lines 221-233): for every record,
priority := 100 - (uptime or 0). -/
def update_all_priorities (db : Registry) : Registry :=
  db.map (fun r => { r with priority := 100 - r.uptime.getD 0 })

/-- DBHandler.update_sleep (db.py lines 193-206): the first record with this
url (the url column is UNIQUE, so the only one) gets
sleep_until := utcnow() + sleep_seconds; no record, no effect. -/
def update_sleep (db : Registry) (url : String) (secs : Int) (now : Int) : Registry :=
  match db with
  | [] => []
  | r :: rest =>
    if r.url == url then { r with sleep_until := some (now + secs) } :: rest
    else r :: update_sleep rest url secs now

/-- DBHandler.clear_sleep (db.py lines 208-219): sleep_until := NULL for the
first record with this url. -/
def clear_sleep (db : Registry) (url : String) : Registry :=
  match db with
  | [] => []
  | r :: rest =>
    if r.url == url then { r with sleep_until := none } :: rest
    else r :: clear_sleep rest url

/-- Availability filter of DBHandler.get_available_instances (db.py line 241).
The source writes `(Instance.sleep_until is None) | (Instance.sleep_until <= now)`.
The left operand is a Python identity test on the Column object and is the
constant False, so under the most charitable reading the filter degenerates
to `false OR sleep_until <= now`; with SQL three-valued logic a NULL
sleep_until then never satisfies it.  (The strict Python reading is even
worse: `False | <clause>` is rejected by SQLAlchemy with a TypeError that
`except SQLAlchemyError` does not catch.)  We embed the charitable reading. -/
def availFilter (now : Int) (r : Instance) : Bool :=
  match r.sleep_until with
  | none => false
  | some t => t ≤ now

/-- Stable insertion of a record into a list sorted by ascending priority. -/
def insByPriority (r : Instance) : Registry → Registry
  | [] => [r]
  | x :: xs => if x.priority ≤ r.priority then x :: insByPriority r xs else r :: x :: xs

/-- Ascending-priority ordering of `order_by(Instance.priority.asc())`
(tie-break order is unspecified in SQL; this is one stable order). -/
def orderByPriorityAsc : Registry → Registry
  | [] => []
  | x :: xs => insByPriority x (orderByPriorityAsc xs)

/-- DBHandler.get_available_instances (db.py lines 235-250): records passing
the (buggy) availability filter, ordered by ascending priority. -/
def get_available_instances (now : Int) (db : Registry) : Registry :=
  orderByPriorityAsc (db.filter (availFilter now))

/-- C1: the claim says a backend whose sleepUntil was never set (NULL) is
listed as available; in the code the filter's left disjunct
`Instance.sleep_until is None` is the Python constant False, so such an
instance is never returned: with one never-slept instance in the registry
the result is empty. -/
theorem get_available_instances_excludes_null_sleep :
    get_available_instances 1000000
        [⟨"https://searx.example.org", some 90, 10, none⟩] = [] ∧
    (⟨"https://searx.example.org", some 90, 10, none⟩ : Instance).sleep_until
        = none := by
  constructor <;> rfl

/- Searcher model (searcher.py, class SearxNGSearcher) and its HTTP
collaborator.  An HTTP exchange either raises in the client (timeout,
connection failure) or yields a response with a status code and a body
whose JSON decoding either fails or produces a JSON document that is or is
not an object (`dict`). -/

inductive JsonVal where
  | dict (payload : String)
  | nonDict (payload : String)
deriving DecidableEq, Repr

structure HResp where
  status : Nat
  jsonBody : Option JsonVal
deriving DecidableEq, Repr

inductive FetchOutcome where
  | resp (r : HResp)
  | netErr
deriving DecidableEq, Repr

/-- httpx `Response.raise_for_status` raises unless the status is a 2xx. -/
def is2xx (s : Nat) : Bool := 200 ≤ s && s < 300

/-- SearxNGSearcher.check_instance_health (searcher.py lines 49-67), with the
HTTP exchange's outcome passed in.  429 → 60 s cooldown; a raising GET, a
non-2xx status, an undecodable body or a non-dict JSON all land in the
generic `except` → 24 h (86400 s) cooldown; a 2xx dict-JSON response clears
the cooldown.  (The human-readable message strings are abbreviated.) -/
def check_instance_health (db : Registry) (now : Int) (instance_url : String)
    (outcome : FetchOutcome) : (Bool × String) × Registry :=
  match outcome with
  | .netErr => ((false, "error"), update_sleep db instance_url 86400 now)
  | .resp r =>
    if r.status == 429 then ((false, "rate_limited"), update_sleep db instance_url 60 now)
    else if !is2xx r.status then ((false, "error"), update_sleep db instance_url 86400 now)
    else
      match r.jsonBody with
      | some (.dict _) => ((true, "healthy"), clear_sleep db instance_url)
      | _ => ((false, "error"), update_sleep db instance_url 86400 now)

/-- SearxNGSearcher.perform_search (searcher.py lines 69-82): 429 → 60 s
cooldown and None; any other failure (raising GET, non-2xx, undecodable
body) returns None with no registry change; a 2xx decodable body is
returned as-is. -/
def perform_search (db : Registry) (now : Int) (instance_url : String)
    (outcome : FetchOutcome) : Option JsonVal × Registry :=
  match outcome with
  | .netErr => (none, db)
  | .resp r =>
    if r.status == 429 then (none, update_sleep db instance_url 60 now)
    else if !is2xx r.status then (none, db)
    else
      match r.jsonBody with
      | none => (none, db)
      | some j => (some j, db)

/-- Sleep column of the (first) record with this url, if one exists. -/
def sleepOf (db : Registry) (url : String) : Option (Option Int) :=
  (db.find? (fun r => r.url == url)).map (fun r => r.sleep_until)

theorem sleepOf_update_sleep (db : Registry) (url : String) (secs now : Int) :
    sleepOf (update_sleep db url secs now) url
      = (sleepOf db url).map (fun _ => some (now + secs)) := by
  induction db with
  | nil => rfl
  | cons r rest ih =>
    by_cases hr : (r.url == url) = true
    · simp [update_sleep, sleepOf, List.find?, hr]
    · have hr' : (r.url == url) = false := by
        cases hb : (r.url == url) with
        | false => rfl
        | true => exact absurd hb hr
      simpa [update_sleep, sleepOf, List.find?, hr'] using ih

theorem sleepOf_clear_sleep (db : Registry) (url : String) :
    sleepOf (clear_sleep db url) url
      = (sleepOf db url).map (fun _ => none) := by
  induction db with
  | nil => rfl
  | cons r rest ih =>
    by_cases hr : (r.url == url) = true
    · simp [clear_sleep, sleepOf, List.find?, hr]
    · have hr' : (r.url == url) = false := by
        cases hb : (r.url == url) with
        | false => rfl
        | true => exact absurd hb hr
      simpa [clear_sleep, sleepOf, List.find?, hr'] using ih

/-- C3: the asymmetric cooldown policy of backend selection.  With a record
present for the probed url: a 429 health probe sets a 60-second cooldown;
a raising probe, a non-2xx probe, or a 2xx probe with undecodable or
non-object JSON sets a 24-hour cooldown; a successful probe clears the
cooldown; a 429 query sets a 60-second cooldown; any other query failure
leaves the cooldown unchanged. -/
theorem health_and_query_cooldown_policy (db : Registry) (now : Int)
    (url : String) (h : (sleepOf db url).isSome) :
    (∀ r : HResp, r.status = 429 →
      sleepOf (check_instance_health db now url (.resp r)).2 url
        = some (some (now + 60)) ∧
      (check_instance_health db now url (.resp r)).1.1 = false) ∧
    (sleepOf (check_instance_health db now url .netErr).2 url
        = some (some (now + 86400))) ∧
    (∀ r : HResp, r.status ≠ 429 → is2xx r.status = false →
      sleepOf (check_instance_health db now url (.resp r)).2 url
        = some (some (now + 86400))) ∧
    (∀ r : HResp, is2xx r.status = true →
      (∀ p, r.jsonBody ≠ some (.dict p)) →
      sleepOf (check_instance_health db now url (.resp r)).2 url
        = some (some (now + 86400))) ∧
    (∀ r : HResp, is2xx r.status = true → (∃ p, r.jsonBody = some (.dict p)) →
      sleepOf (check_instance_health db now url (.resp r)).2 url = some none ∧
      (check_instance_health db now url (.resp r)).1.1 = true) ∧
    (∀ r : HResp, r.status = 429 →
      sleepOf (perform_search db now url (.resp r)).2 url
        = some (some (now + 60))) ∧
    (sleepOf (perform_search db now url .netErr).2 url = sleepOf db url) ∧
    (∀ r : HResp, r.status ≠ 429 → is2xx r.status = false →
      sleepOf (perform_search db now url (.resp r)).2 url = sleepOf db url) ∧
    (∀ r : HResp, is2xx r.status = true → r.jsonBody = none →
      sleepOf (perform_search db now url (.resp r)).2 url = sleepOf db url) := by
  obtain ⟨s, hs⟩ := Option.isSome_iff_exists.mp h
  have h60 : sleepOf (update_sleep db url 60 now) url = some (some (now + 60)) := by
    rw [sleepOf_update_sleep, hs]; rfl
  have h24 : sleepOf (update_sleep db url 86400 now) url
      = some (some (now + 86400)) := by
    rw [sleepOf_update_sleep, hs]; rfl
  have hclear : sleepOf (clear_sleep db url) url = some none := by
    rw [sleepOf_clear_sleep, hs]; rfl
  refine ⟨?_, ?_, ?_, ?_, ?_, ?_, ?_, ?_, ?_⟩
  · intro r hr
    have h429 : (r.status == 429) = true := by simp [hr]
    constructor <;> simp [check_instance_health, h429, h60]
  · simpa [check_instance_health] using h24
  · intro r hr h2
    have h429 : (r.status == 429) = false := by simp [hr]
    simp [check_instance_health, h429, h2, h24]
  · intro r h2 hj
    have h429 : (r.status == 429) = false := by
      have : r.status ≠ 429 := by
        intro he
        rw [he] at h2
        exact absurd h2 (by decide)
      simp [this]
    cases hb : r.jsonBody with
    | none => simp [check_instance_health, h429, h2, hb, h24]
    | some j =>
      cases j with
      | dict p => exact absurd hb (hj p)
      | nonDict p => simp [check_instance_health, h429, h2, hb, h24]
  · intro r h2 hj
    obtain ⟨p, hp⟩ := hj
    have h429 : (r.status == 429) = false := by
      have : r.status ≠ 429 := by
        intro he
        rw [he] at h2
        exact absurd h2 (by decide)
      simp [this]
    constructor <;> simp [check_instance_health, h429, h2, hp, hclear]
  · intro r hr
    have h429 : (r.status == 429) = true := by simp [hr]
    simp [perform_search, h429, h60]
  · simp [perform_search]
  · intro r hr h2
    have h429 : (r.status == 429) = false := by simp [hr]
    simp [perform_search, h429, h2]
  · intro r h2 hb
    have h429 : (r.status == 429) = false := by
      have : r.status ≠ 429 := by
        intro he
        rw [he] at h2
        exact absurd h2 (by decide)
      simp [this]
    simp [perform_search, h429, h2, hb]

/-- C3 witness: a registry with one record; a 429 probe at time 5 yields a
cooldown until 65 and an unhealthy verdict. -/
theorem health_and_query_cooldown_policy_witness :
    sleepOf (check_instance_health [⟨"https://i.test", some 50, 100, some 7⟩]
        5 "https://i.test" (.resp ⟨429, none⟩)).2 "https://i.test"
      = some (some 65) ∧
    (check_instance_health [⟨"https://i.test", some 50, 100, some 7⟩]
        5 "https://i.test" (.resp ⟨429, none⟩)).1.1 = false :=
  (health_and_query_cooldown_policy [⟨"https://i.test", some 50, 100, some 7⟩]
      5 "https://i.test" (by decide)).1 ⟨429, none⟩ rfl

/- SearxNGSearcher.search (searcher.py lines 28-47).  The HTTP world is a
pass-indexed environment: pass `i` probes and queries an instance url with
the outcomes `(env i).probe url` and `(env i).query url`. -/

/-- Python's `url.rstrip("/")`: remove every trailing slash. -/
def rstripSlash (s : String) : String :=
  String.mk ((s.data.reverse.dropWhile (fun c => c == '/')).reverse)

structure PassEnv where
  probe : String → FetchOutcome
  query : String → FetchOutcome

abbrev SearchEnv := Nat → PassEnv

/-- Outcome classification of check_instance_health: does it report healthy? -/
def healthyOutcome : FetchOutcome → Bool
  | .netErr => false
  | .resp r =>
    if r.status == 429 then false
    else if !is2xx r.status then false
    else
      match r.jsonBody with
      | some (.dict _) => true
      | _ => false

/-- Outcome classification of perform_search: the body it returns, if any. -/
def queryResult : FetchOutcome → Option JsonVal
  | .netErr => none
  | .resp r =>
    if r.status == 429 then none
    else if !is2xx r.status then none
    else r.jsonBody

theorem check_health_fst (db : Registry) (now : Int) (u : String)
    (o : FetchOutcome) :
    (check_instance_health db now u o).1.1 = healthyOutcome o := by
  cases o with
  | netErr => rfl
  | resp r =>
    cases h1 : (r.status == 429) with
    | true => simp [check_instance_health, healthyOutcome, h1]
    | false =>
      cases h2 : is2xx r.status with
      | false => simp [check_instance_health, healthyOutcome, h1, h2]
      | true =>
        cases hb : r.jsonBody with
        | none => simp [check_instance_health, healthyOutcome, h1, h2, hb]
        | some j =>
          cases j <;> simp [check_instance_health, healthyOutcome, h1, h2, hb]

theorem perform_search_fst (db : Registry) (now : Int) (u : String)
    (o : FetchOutcome) :
    (perform_search db now u o).1 = queryResult o := by
  cases o with
  | netErr => rfl
  | resp r =>
    cases h1 : (r.status == 429) with
    | true => simp [perform_search, queryResult, h1]
    | false =>
      cases h2 : is2xx r.status with
      | false => simp [perform_search, queryResult, h1, h2]
      | true =>
        cases hb : r.jsonBody with
        | none => simp [perform_search, queryResult, h1, h2, hb]
        | some j => simp [perform_search, queryResult, h1, h2, hb]

/-- One pass of search's inner `for record in self.instances` loop over the
snapshot list `insts`, threading the registry through the cooldown
updates: probe; on failure continue; on success query; a non-None query
result returns `(instance_url, result)` at once. -/
def runPass (pe : PassEnv) (now : Int) : Registry → Registry →
    Option (String × JsonVal) × Registry
  | [], db => (none, db)
  | r :: rest, db =>
    let u := rstripSlash r.url
    let hres := check_instance_health db now u (pe.probe u)
    if hres.1.1 then
      let qres := perform_search hres.2 now u (pe.query u)
      match qres.1 with
      | some body => (some (u, body), qres.2)
      | none => runPass pe now rest qres.2
    else runPass pe now rest hres.2

/-- The available snapshot a pass works on: update_instances() first commits
`update_all_priorities` and then re-reads `get_available_instances`. -/
def instsOf (now : Int) (db : Registry) : Registry :=
  get_available_instances now (update_all_priorities db)

/-- Registry state after a full pass starting from `db`. -/
def passCommit (pe : PassEnv) (now : Int) (db : Registry) : Registry :=
  (runPass pe now (instsOf now db) (update_all_priorities db)).2

/-- SearxNGSearcher.search as a loop over the remaining attempts
(`while attempt <= self.retries`); also returns the final registry and the
number of passes executed. -/
def searchAux (env : SearchEnv) (now : Int) :
    Nat → Nat → Registry → Option (String × JsonVal) × Registry × Nat
  | _, 0, db => (none, db, 0)
  | idx, fuel+1, db =>
    let db1 := update_all_priorities db
    let pass := runPass (env idx) now (get_available_instances now db1) db1
    match pass.1 with
    | some out => (some out, pass.2, 1)
    | none =>
      let rest := searchAux env now (idx+1) fuel pass.2
      (rest.1, rest.2.1, rest.2.2 + 1)

/-- SearxNGSearcher.search with `retries = r`: r+1 passes at most. -/
def search (env : SearchEnv) (retries : Nat) (now : Int) (db : Registry) :
    Option (String × JsonVal) × Registry × Nat :=
  searchAux env now 0 (retries + 1) db

/-- Pure per-pass result: the first instance of the snapshot (in its listed
order) whose probe is healthy and whose query yields a body. -/
def passFirstSuccess (pe : PassEnv) (insts : Registry) :
    Option (String × JsonVal) :=
  insts.findSome? fun r =>
    let u := rstripSlash r.url
    if healthyOutcome (pe.probe u) then
      (queryResult (pe.query u)).map (fun j => (u, j))
    else none

/-- Index and value of the first pass (from `idx`, within `fuel` passes)
whose pure result is a success, together with the evolving registry. -/
def findPass (env : SearchEnv) (now : Int) :
    Nat → Nat → Registry → Option (Nat × (String × JsonVal))
  | _, 0, _ => none
  | idx, fuel+1, db =>
    match passFirstSuccess (env idx) (instsOf now db) with
    | some out => some (idx, out)
    | none => findPass env now (idx+1) fuel (passCommit (env idx) now db)

/-- The cooldown side effects threaded through a pass do not influence the
pass's own outcome: it equals the pure first-success over the snapshot. -/
theorem runPass_fst (pe : PassEnv) (now : Int) (insts : Registry) :
    ∀ db, (runPass pe now insts db).1 = passFirstSuccess pe insts := by
  induction insts with
  | nil => intro db; rfl
  | cons r rest ih =>
    intro db
    simp only [runPass, passFirstSuccess, List.findSome?_cons]
    rw [check_health_fst]
    cases hh : healthyOutcome (pe.probe (rstripSlash r.url)) with
    | false =>
      simp only [if_neg (by simp [hh] : ¬(false = true))]
      simpa [passFirstSuccess] using ih _
    | true =>
      simp only [if_pos rfl]
      rw [perform_search_fst]
      cases hq : queryResult (pe.query (rstripSlash r.url)) with
      | none => simpa [passFirstSuccess] using ih _
      | some j => simp

theorem findPass_ge (env : SearchEnv) (now : Int) :
    ∀ fuel idx db k out, findPass env now idx fuel db = some (k, out) → idx ≤ k := by
  intro fuel
  induction fuel with
  | zero => intro idx db k out h; exact absurd h (by simp [findPass])
  | succ n ih =>
    intro idx db k out h
    rw [findPass] at h
    cases hp : passFirstSuccess (env idx) (instsOf now db) with
    | some o =>
      rw [hp] at h
      simp only [Option.some.injEq, Prod.mk.injEq] at h
      omega
    | none =>
      rw [hp] at h
      exact Nat.le_of_succ_le (ih (idx+1) _ k out h)

theorem findPass_lt (env : SearchEnv) (now : Int) :
    ∀ fuel idx db k out, findPass env now idx fuel db = some (k, out) →
      k < idx + fuel := by
  intro fuel
  induction fuel with
  | zero => intro idx db k out h; exact absurd h (by simp [findPass])
  | succ n ih =>
    intro idx db k out h
    rw [findPass] at h
    cases hp : passFirstSuccess (env idx) (instsOf now db) with
    | some o =>
      rw [hp] at h
      simp only [Option.some.injEq, Prod.mk.injEq] at h
      omega
    | none =>
      rw [hp] at h
      have := ih (idx+1) _ k out h
      omega

theorem searchAux_none (env : SearchEnv) (now : Int) :
    ∀ fuel idx db, findPass env now idx fuel db = none →
      (searchAux env now idx fuel db).1 = none ∧
      (searchAux env now idx fuel db).2.2 = fuel := by
  intro fuel
  induction fuel with
  | zero => intro idx db _; exact ⟨rfl, rfl⟩
  | succ n ih =>
    intro idx db h
    rw [findPass] at h
    have hrun := runPass_fst (env idx) now
      (get_available_instances now (update_all_priorities db))
      (update_all_priorities db)
    cases hp : passFirstSuccess (env idx)
        (instsOf now db) with
    | some o => rw [hp] at h; exact absurd h (by simp)
    | none =>
      rw [hp] at h
      have hrun' : (runPass (env idx) now
          (get_available_instances now (update_all_priorities db))
          (update_all_priorities db)).1 = none := by
        rw [hrun]; exact hp
      have := ih (idx+1) (passCommit (env idx) now db) h
      simp only [searchAux, hrun']
      have h2 : (searchAux env now (idx + 1) n
          (runPass (env idx) now (get_available_instances now (update_all_priorities db))
            (update_all_priorities db)).2).2.2 = n := this.2
      exact ⟨this.1, by omega⟩

theorem searchAux_some (env : SearchEnv) (now : Int) :
    ∀ fuel idx db k out, findPass env now idx fuel db = some (k, out) →
      (searchAux env now idx fuel db).1 = some out ∧
      (searchAux env now idx fuel db).2.2 = k + 1 - idx := by
  intro fuel
  induction fuel with
  | zero => intro idx db k out h; exact absurd h (by simp [findPass])
  | succ n ih =>
    intro idx db k out h
    rw [findPass] at h
    have hrun := runPass_fst (env idx) now
      (get_available_instances now (update_all_priorities db))
      (update_all_priorities db)
    cases hp : passFirstSuccess (env idx) (instsOf now db) with
    | some o =>
      rw [hp] at h
      simp only [Option.some.injEq, Prod.mk.injEq] at h
      have hrun' : (runPass (env idx) now
          (get_available_instances now (update_all_priorities db))
          (update_all_priorities db)).1 = some o := by
        rw [hrun]; exact hp
      simp only [searchAux, hrun']
      refine ⟨by rw [h.2], ?_⟩
      omega
    | none =>
      rw [hp] at h
      have hk : idx + 1 ≤ k := findPass_ge env now n (idx+1) _ k out h
      have hrun' : (runPass (env idx) now
          (get_available_instances now (update_all_priorities db))
          (update_all_priorities db)).1 = none := by
        rw [hrun]; exact hp
      have := ih (idx+1) (passCommit (env idx) now db) k out h
      simp only [searchAux, hrun']
      have h2 : (searchAux env now (idx + 1) n
          (runPass (env idx) now (get_available_instances now (update_all_priorities db))
            (update_all_priorities db)).2).2.2 = k + 1 - (idx + 1) := this.2
      exact ⟨this.1, by omega⟩

theorem mem_insByPriority (r x : Instance) (l : Registry)
    (h : x ∈ insByPriority r l) : x = r ∨ x ∈ l := by
  induction l with
  | nil => simpa [insByPriority] using h
  | cons y ys ih =>
    simp only [insByPriority] at h
    by_cases hc : y.priority ≤ r.priority
    · rw [if_pos hc] at h
      rcases List.mem_cons.mp h with h1 | h2
      · right; exact List.mem_cons.mpr (Or.inl h1)
      · rcases ih h2 with h3 | h4
        · left; exact h3
        · right; exact List.mem_cons.mpr (Or.inr h4)
    · rw [if_neg hc] at h
      rcases List.mem_cons.mp h with h1 | h2
      · left; exact h1
      · right; exact h2

theorem pairwise_insByPriority (r : Instance) (l : Registry)
    (h : l.Pairwise (fun a b => a.priority ≤ b.priority)) :
    (insByPriority r l).Pairwise (fun a b => a.priority ≤ b.priority) := by
  induction l with
  | nil => simp [insByPriority]
  | cons y ys ih =>
    rcases List.pairwise_cons.mp h with ⟨hy, hys⟩
    simp only [insByPriority]
    by_cases hc : y.priority ≤ r.priority
    · rw [if_pos hc]
      refine List.pairwise_cons.mpr ⟨?_, ih hys⟩
      intro z hz
      rcases mem_insByPriority r z ys hz with h1 | h2
      · rw [h1]; exact hc
      · exact hy z h2
    · rw [if_neg hc]
      have hr : r.priority ≤ y.priority := le_of_not_le hc
      refine List.pairwise_cons.mpr ⟨?_, h⟩
      intro z hz
      rcases List.mem_cons.mp hz with h1 | h2
      · rw [h1]; exact hr
      · exact le_trans hr (hy z h2)

theorem pairwise_orderByPriorityAsc (l : Registry) :
    (orderByPriorityAsc l).Pairwise (fun a b => a.priority ≤ b.priority) := by
  induction l with
  | nil => simp [orderByPriorityAsc]
  | cons y ys ih => exact pairwise_insByPriority y (orderByPriorityAsc ys) ih

/-- C4: search with retries = r executes at most r+1 passes, each over the
freshly re-prioritized, re-listed, ascending-priority-ordered snapshot; it
returns the stripped url and body of the first success and stops there
(having executed exactly k+1 passes when pass k, counted from 0, is the
first with a success, with all earlier passes exhausted fruitlessly), and
it returns the None sentinel exactly when all r+1 passes are exhausted;
r = 0 therefore means exactly one full pass. -/
theorem search_rounds_and_first_success (env : SearchEnv) (retries : Nat)
    (now : Int) (db : Registry) :
    ((search env retries now db).1 = none ↔
      findPass env now 0 (retries + 1) db = none) ∧
    ((search env retries now db).1 = none →
      (search env retries now db).2.2 = retries + 1) ∧
    (∀ k out, findPass env now 0 (retries + 1) db = some (k, out) →
      k ≤ retries ∧ (search env retries now db).1 = some out ∧
      (search env retries now db).2.2 = k + 1) ∧
    (∀ d, (instsOf now d).Pairwise (fun a b => a.priority ≤ b.priority)) := by
  refine ⟨⟨?_, ?_⟩, ?_, ?_, ?_⟩
  · intro hnone
    cases hf : findPass env now 0 (retries + 1) db with
    | none => rfl
    | some p =>
      have := searchAux_some env now (retries + 1) 0 db p.1 p.2 (by rw [hf])
      rw [search] at hnone
      rw [this.1] at hnone
      exact absurd hnone (by simp)
  · intro hf
    exact (searchAux_none env now (retries + 1) 0 db hf).1
  · intro hnone
    have hf : findPass env now 0 (retries + 1) db = none := by
      cases hf : findPass env now 0 (retries + 1) db with
      | none => rfl
      | some p =>
        have := searchAux_some env now (retries + 1) 0 db p.1 p.2 (by rw [hf])
        rw [search] at hnone
        rw [this.1] at hnone
        exact absurd hnone (by simp)
    exact (searchAux_none env now (retries + 1) 0 db hf).2
  · intro k out hf
    have hs := searchAux_some env now (retries + 1) 0 db k out hf
    have hlt := findPass_lt env now (retries + 1) 0 db k out hf
    refine ⟨by omega, hs.1, ?_⟩
    rw [search, hs.2]
    omega
  · intro d
    exact pairwise_orderByPriorityAsc _

/-- C4 witness: one always-healthy instance, retries = 0: exactly one pass,
returning the stripped instance url with the query body. -/
theorem search_rounds_and_first_success_witness :
    (search (fun _ => ⟨fun _ => .resp ⟨200, some (.dict "ok")⟩,
        fun _ => .resp ⟨200, some (.dict "res")⟩⟩) 0 10
        [⟨"https://s.test/", some 90, 0, some 0⟩]).1
      = some ("https://s.test", .dict "res") ∧
    (search (fun _ => ⟨fun _ => .resp ⟨200, some (.dict "ok")⟩,
        fun _ => .resp ⟨200, some (.dict "res")⟩⟩) 0 10
        [⟨"https://s.test/", some 90, 0, some 0⟩]).2.2 = 1 := by
  have h := (search_rounds_and_first_success
      (fun _ => ⟨fun _ => .resp ⟨200, some (.dict "ok")⟩,
        fun _ => .resp ⟨200, some (.dict "res")⟩⟩) 0 10
      [⟨"https://s.test/", some 90, 0, some 0⟩]).2.2.1
      0 ("https://s.test", .dict "res") (by decide)
  exact ⟨h.2.1, h.2.2⟩

/-
Crawler model (crawler.py, class SiteCrawler).

Python setting values occurring in the layered configuration dicts are
booleans or lists of strings; a dict is embedded as a function from key to
optional value (`update` = later layer shadows earlier).  Library
collaborators (re.search, urljoin, urlparse().netloc, splitext, robots,
HTTP GET, the summarizer) are fields of `CrawlEnv`.
-/

inductive SVal where
  | bool (b : Bool)
  | strList (l : List String)
deriving DecidableEq, Repr

abbrev SettingsDict := String → Option SVal

def emptyDict : SettingsDict := fun _ => none

/-- Python `dict.update`: every key of `over` shadows `base`. -/
def dictUpdate (base over : SettingsDict) : SettingsDict := fun k =>
  match over k with
  | some v => some v
  | none => base k

/-- Python truthiness of an optional setting value (None, False and the
empty list are falsy). -/
def truthy : Option SVal → Bool
  | some (.bool b) => b
  | some (.strList l) => !l.isEmpty
  | none => false

/-- Read a setting as a list of strings.  The catch-all arm covers only
ill-typed configurations (where the Python code would raise when
iterating the value). -/
def asStrList : Option SVal → List String
  | some (.strList l) => l
  | _ => []

/-- The configuration the SiteCrawler constructor reads (crawler.py lines
17-39), restricted to the keys the modelled methods consult. -/
structure CrawlerConfig where
  base_url : String
  max_depth : Nat
  accepted_content_types : List String
  binary_extensions : List String
  download_binaries : Bool
  download_specific_binaries : List String
  find_images : Bool
  respect_robots : Bool
  exclude_url_patterns : List String
  exclude_content_patterns : List String
  depth_settings : Nat → Option SettingsDict
  url_settings : List (String × SettingsDict)
  recursive_crawl : Bool

inductive TagVal where
  | str (s : String)
  | obj (name : String)
deriving DecidableEq, Repr

/-- A tag is a plain string or a dict whose name entry is read with
default "" (crawler.py lines 265-270). -/
def tagName : TagVal → String
  | .str s => s
  | .obj n => n

/-- The library collaborators of SiteCrawler, abstracted. -/
structure CrawlEnv where
  reSearch : String → String → Bool
  urljoin : String → String → String
  netloc : String → String
  urlPathExt : String → String
  allowed : String → Bool
  fetch : String → Option String
  summarize : String → String × List TagVal
  hrefsOf : String → List String

/- Structural string helpers (the Python str methods the crawler uses,
re-implemented over the character list so that they compute by
reduction). -/

/-- Python str.lower (over the code points, as for the ASCII urls and
content types at hand). -/
def lowerStr (s : String) : String := String.mk (s.data.map Char.toLower)

/-- Python str.endswith. -/
def strEndsWith (s post : String) : Bool :=
  s.data.drop (s.data.length - post.data.length) == post.data

/-- Python str.startswith. -/
def strStartsWith (s pre : String) : Bool :=
  s.data.take pre.data.length == pre.data

def isPyWhitespace (c : Char) : Bool :=
  c == ' ' || c == '\t' || c == '\n' || c == '\r'

/-- Python str.strip() (both-ends whitespace strip). -/
def strTrim (s : String) : String :=
  String.mk (((s.data.dropWhile isPyWhitespace).reverse.dropWhile
    isPyWhitespace).reverse)

/-- Python s[n:]. -/
def strDrop (s : String) (n : Nat) : String := String.mk (s.data.drop n)

/-- Python s[:-n]. -/
def strDropRight (s : String) (n : Nat) : String :=
  String.mk (s.data.take (s.data.length - n))

/-- Characters before the first semicolon: `header.split(";")[0]`. -/
def takeUntilSemi : List Char → List Char
  | [] => []
  | c :: rest => if c == ';' then [] else c :: takeUntilSemi rest

/-- Substring containment, for Python's `"html" in content_type`. -/
def hasSub (sub : List Char) : List Char → Bool
  | [] => sub.isEmpty
  | c :: rest => ((c :: rest).take sub.length == sub) || hasSub sub rest

/-- SiteCrawler.is_binary_url (crawler.py lines 57-61). -/
def is_binary_url (binary_extensions : List String) (url : String) : Bool :=
  binary_extensions.any (fun ext => strEndsWith (lowerStr url) ext)

/-- SiteCrawler.should_exclude_url (crawler.py lines 63-73), with the
pattern list passed explicitly (as every modelled call site does). -/
def should_exclude_url (re : String → String → Bool) (url : String)
    (patterns : List String) : Bool :=
  patterns.any (fun p => re p url)

/-- SiteCrawler.get_url_specific_settings (crawler.py lines 75-81): an
exact key wins outright; otherwise the first entry, in declared order,
whose key regex-matches the url; otherwise the empty dict. -/
def get_url_specific_settings (cfg : CrawlerConfig)
    (re : String → String → Bool) (url : String) : SettingsDict :=
  match cfg.url_settings.find? (fun e => e.1 == url) with
  | some e => e.2
  | none =>
    match cfg.url_settings.find? (fun e => re e.1 url) with
    | some e => e.2
    | none => emptyDict

/-- The base `effective` dict built by merge_settings from the global
configuration (crawler.py lines 84-90). -/
def baseEffective (cfg : CrawlerConfig) : SettingsDict := fun k =>
  if k == "download_binaries" then some (.bool cfg.download_binaries)
  else if k == "download_specific_binaries" then
    some (.strList cfg.download_specific_binaries)
  else if k == "find_images" then some (.bool cfg.find_images)
  else if k == "exclude_url_patterns" then some (.strList cfg.exclude_url_patterns)
  else if k == "exclude_content_patterns" then
    some (.strList cfg.exclude_content_patterns)
  else none

/-- SiteCrawler.merge_settings (crawler.py lines 83-93): global defaults,
shallow-updated by depth_settings[depth] if present, shallow-updated by
the url-scoped override. -/
def merge_settings (cfg : CrawlerConfig) (re : String → String → Bool)
    (url : String) (depth : Nat) : SettingsDict :=
  dictUpdate
    (dictUpdate (baseEffective cfg) ((cfg.depth_settings depth).getD emptyDict))
    (get_url_specific_settings cfg re url)

theorem find?_append_first {α : Type} (p : α → Bool) (pre : List α) (x : α)
    (post : List α) (hpre : ∀ e ∈ pre, p e = false) (hx : p x = true) :
    (pre ++ x :: post).find? p = some x := by
  induction pre with
  | nil => simp [List.find?, hx]
  | cons y ys ih =>
    have hy : p y = false := hpre y (List.mem_cons_self y ys)
    simp only [List.cons_append, List.find?, hy]
    exact ih (fun e he => hpre e (List.mem_cons_of_mem y he))

/-- C6: the three-layer merge.  A key resolved by the URL-scoped override
wins over both other layers; otherwise the depth layer wins over the
global layer; otherwise the global value stands.  The URL-scoped override
is the exact-key entry when one exists, else the first declared entry
whose key regex-matches the url; with no match at all the earlier layers
pass through unchanged. -/
theorem merge_settings_layering (cfg : CrawlerConfig)
    (re : String → String → Bool) (url : String) (depth : Nat) (k : String) :
    (∀ v, get_url_specific_settings cfg re url k = some v →
      merge_settings cfg re url depth k = some v) ∧
    (get_url_specific_settings cfg re url k = none →
      ∀ w, ((cfg.depth_settings depth).getD emptyDict) k = some w →
        merge_settings cfg re url depth k = some w) ∧
    (get_url_specific_settings cfg re url k = none →
      ((cfg.depth_settings depth).getD emptyDict) k = none →
      merge_settings cfg re url depth k = baseEffective cfg k) ∧
    (∀ pre s post, cfg.url_settings = pre ++ (url, s) :: post →
      (∀ e ∈ pre, e.1 ≠ url) →
      get_url_specific_settings cfg re url = s) ∧
    (∀ pre p s post, cfg.url_settings = pre ++ (p, s) :: post →
      (∀ e ∈ cfg.url_settings, e.1 ≠ url) →
      (∀ e ∈ pre, re e.1 url = false) → re p url = true →
      get_url_specific_settings cfg re url = s) ∧
    ((∀ e ∈ cfg.url_settings, e.1 ≠ url) →
      (∀ e ∈ cfg.url_settings, re e.1 url = false) →
      merge_settings cfg re url depth k
        = dictUpdate (baseEffective cfg) ((cfg.depth_settings depth).getD emptyDict) k) := by
  refine ⟨?_, ?_, ?_, ?_, ?_, ?_⟩
  · intro v hv
    simp [merge_settings, dictUpdate, hv]
  · intro hnone w hw
    simp [merge_settings, dictUpdate, hnone, hw]
  · intro hnone hdnone
    simp [merge_settings, dictUpdate, hnone, hdnone]
  · intro pre s post hsplit hpre
    have hfind : cfg.url_settings.find? (fun e => e.1 == url) = some (url, s) := by
      rw [hsplit]
      refine find?_append_first _ pre (url, s) post ?_ (by simp)
      intro e he
      simpa using hpre e he
    simp [get_url_specific_settings, hfind]
  · intro pre p s post hsplit hexact hpre hp
    have hnone : cfg.url_settings.find? (fun e => e.1 == url) = none := by
      rw [List.find?_eq_none]
      intro e he
      simpa using hexact e he
    have hfind : cfg.url_settings.find? (fun e => re e.1 url) = some (p, s) := by
      rw [hsplit]
      exact find?_append_first _ pre (p, s) post hpre hp
    simp [get_url_specific_settings, hnone, hfind]
  · intro hexact hre
    have hnone : cfg.url_settings.find? (fun e => e.1 == url) = none := by
      rw [List.find?_eq_none]
      intro e he
      simpa using hexact e he
    have hnone2 : cfg.url_settings.find? (fun e => re e.1 url) = none := by
      rw [List.find?_eq_none]
      intro e he
      simp [hre e he]
    simp [merge_settings, get_url_specific_settings, hnone, hnone2, dictUpdate,
      emptyDict]

/-- Dict of the C6 witness: the URL-scoped layer. -/
def wDictU : SettingsDict := fun k =>
  if k == "download_binaries" then some (.bool true) else none

/-- Dict of the C6 witness: the depth layer, conflicting on the same key. -/
def wDictD : SettingsDict := fun k =>
  if k == "download_binaries" then some (.bool false) else none

/-- Configuration of the C6 witness: `download_binaries` is set (with three
different values) at the global, depth-1 and URL-pattern layers. -/
def wCfg6 : CrawlerConfig where
  base_url := "https://a.test"
  max_depth := 2
  accepted_content_types := ["text/html"]
  binary_extensions := []
  download_binaries := false
  download_specific_binaries := []
  find_images := false
  respect_robots := false
  exclude_url_patterns := []
  exclude_content_patterns := []
  depth_settings := fun d => if d == 1 then some wDictD else none
  url_settings := [("docs", wDictU)]
  recursive_crawl := true

/-- C6 witness: with the key set conflictingly at all three layers, the
URL-pattern layer's value wins. -/
theorem merge_settings_layering_witness :
    merge_settings wCfg6 (fun p u => p == "docs" && u == "https://a.test/docs/x")
      "https://a.test/docs/x" 1 "download_binaries" = some (.bool true) :=
  (merge_settings_layering wCfg6
      (fun p u => p == "docs" && u == "https://a.test/docs/x")
      "https://a.test/docs/x" 1 "download_binaries").1 (.bool true) (by decide)

/-- SiteCrawler.add_url (crawler.py lines 109-131).  A url matching an
effective exclude pattern is dropped.  A binary-suffixed url is never
inserted: the code downloads it (filesystem only) or skips it and calls
update_url_status — which touches only an already-existing row — with
status `downloaded` or `ignored` and content-type `binary`; `ext` is
`splitext(urlparse(url).path)[1].lower()`.  Everything else is inserted. -/
def add_url (cfg : CrawlerConfig) (env : CrawlEnv) (db : Frontier)
    (url : String) (depth : Nat) (status : String)
    (content_type : Option String) : Frontier :=
  if should_exclude_url env.reSearch url
      (asStrList (merge_settings cfg env.reSearch url depth "exclude_url_patterns")) then
    db
  else if is_binary_url cfg.binary_extensions url then
    let ext := env.urlPathExt url
    if truthy (merge_settings cfg env.reSearch url depth "download_binaries")
        || (truthy (merge_settings cfg env.reSearch url depth "download_specific_binaries")
          && (asStrList (merge_settings cfg env.reSearch url depth
                "download_specific_binaries")).contains ext) then
      update_url_status db url "downloaded" (some "binary")
    else
      update_url_status db url "ignored" (some "binary")
  else insert_url db url depth status content_type

theorem countUrl_update_url_status (db : Frontier) (u s : String)
    (c : Option String) (x : String) :
    countUrl (update_url_status db u s c) x = countUrl db x := by
  induction db with
  | nil => rfl
  | cons r rest ih =>
    by_cases hr : (r.url == u) = true
    · simp only [update_url_status, hr, if_true, countUrl, List.filter]
      cases hx : (r.url == x) <;> simp
    · have hr' : (r.url == u) = false := by
        cases hb : (r.url == u) with
        | false => rfl
        | true => exact absurd hb hr
      simp only [update_url_status, hr', Bool.false_eq_true, if_false]
      simp only [countUrl, List.filter] at ih ⊢
      cases hx : (r.url == x) <;> simp [ih]

theorem update_url_status_sets_status (db : Frontier) (u s : String)
    (c : Option String) (hwf : countUrl db u ≤ 1) :
    ∀ row ∈ update_url_status db u s c, row.url = u → row.status = s := by
  induction db with
  | nil => intro row h; exact absurd h (by simp [update_url_status])
  | cons r rest ih =>
    intro row hrow hurl
    by_cases hr : (r.url == u) = true
    · simp only [update_url_status, hr, if_true] at hrow
      rcases List.mem_cons.mp hrow with h1 | h2
      · rw [h1]
      · exfalso
        have h1 : 1 ≤ countUrl rest u := by
          have : row ∈ rest.filter (fun t => t.url == u) :=
            List.mem_filter.mpr ⟨h2, by simp [hurl]⟩
          have := List.length_pos.mpr (List.ne_nil_of_mem this)
          simpa [countUrl] using this
        have h2' : countUrl (r :: rest) u = 1 + countUrl rest u := by
          simp [countUrl, List.filter, hr, Nat.add_comm]
        omega
    · have hr' : (r.url == u) = false := by
        cases hb : (r.url == u) with
        | false => rfl
        | true => exact absurd hb hr
      simp only [update_url_status, hr', Bool.false_eq_true, if_false] at hrow
      rcases List.mem_cons.mp hrow with h1 | h2
      · exfalso
        rw [h1] at hurl
        simp [hurl] at hr'
      · have hwf' : countUrl rest u ≤ 1 := by
          have : countUrl (r :: rest) u = countUrl rest u := by
            simp [countUrl, List.filter, hr']
          omega
        exact ih hwf' row h2 hurl

/-- C9: enqueue-time filtering.  Under a well-formed frontier (at most one
row per primary key): a url matching an effective exclude pattern leaves
the store untouched (nothing is inserted at all); a binary-suffixed url
adds no row and leaves no `to_visit` row for that url (any existing row is
re-marked `downloaded` or `ignored`); only a url that is neither excluded
nor binary reaches insert_url. -/
theorem add_url_inserts_only_clean_urls (cfg : CrawlerConfig) (env : CrawlEnv)
    (db : Frontier) (url : String) (depth : Nat) (status : String)
    (ct : Option String) (hwf : countUrl db url ≤ 1) :
    (should_exclude_url env.reSearch url
        (asStrList (merge_settings cfg env.reSearch url depth
          "exclude_url_patterns")) = true →
      add_url cfg env db url depth status ct = db) ∧
    (should_exclude_url env.reSearch url
        (asStrList (merge_settings cfg env.reSearch url depth
          "exclude_url_patterns")) = false →
      is_binary_url cfg.binary_extensions url = true →
      countUrl (add_url cfg env db url depth status ct) url = countUrl db url ∧
      (∀ row ∈ add_url cfg env db url depth status ct, row.url = url →
        row.status = "downloaded" ∨ row.status = "ignored")) ∧
    (should_exclude_url env.reSearch url
        (asStrList (merge_settings cfg env.reSearch url depth
          "exclude_url_patterns")) = false →
      is_binary_url cfg.binary_extensions url = false →
      add_url cfg env db url depth status ct
        = insert_url db url depth status ct) := by
  refine ⟨?_, ?_, ?_⟩
  · intro he
    simp [add_url, he]
  · intro he hb
    simp only [add_url, he, Bool.false_eq_true, if_false, hb, if_true]
    by_cases hd : (truthy (merge_settings cfg env.reSearch url depth "download_binaries")
        || (truthy (merge_settings cfg env.reSearch url depth "download_specific_binaries")
          && (asStrList (merge_settings cfg env.reSearch url depth
                "download_specific_binaries")).contains (env.urlPathExt url))) = true
    · rw [if_pos hd]
      refine ⟨countUrl_update_url_status db url _ _ url, ?_⟩
      intro row hrow hurl
      exact Or.inl (update_url_status_sets_status db url _ _ hwf row hrow hurl)
    · rw [if_neg hd]
      refine ⟨countUrl_update_url_status db url _ _ url, ?_⟩
      intro row hrow hurl
      exact Or.inr (update_url_status_sets_status db url _ _ hwf row hrow hurl)
  · intro he hb
    simp [add_url, he, hb]

/-- The C2/C9/C10 witness collaborators: no pattern ever matches, robots
always allows, every fetch raises, pages are empty. -/
def wEnv : CrawlEnv where
  reSearch := fun _ _ => false
  urljoin := fun _ h => h
  netloc := fun _ => ""
  urlPathExt := fun _ => ".pdf"
  allowed := fun _ => true
  fetch := fun _ => none
  summarize := fun _ => ("", [])
  hrefsOf := fun _ => []

/-- The C2 witness configuration with binary downloading enabled. -/
def wCfgDl : CrawlerConfig where
  base_url := "https://a.test"
  max_depth := 2
  accepted_content_types := ["text/html"]
  binary_extensions := [".pdf"]
  download_binaries := true
  download_specific_binaries := []
  find_images := false
  respect_robots := false
  exclude_url_patterns := []
  exclude_content_patterns := []
  depth_settings := fun _ => none
  url_settings := []
  recursive_crawl := true

/-- The C2 witness configuration with binary downloading disabled. -/
def wCfgNoDl : CrawlerConfig := { wCfgDl with download_binaries := false }

/-- C2: the claim says a discovered binary-suffixed url ends with a
frontier row marked `downloaded` (download enabled) or `ignored`
(disabled).  In the code the status write is update_url_status, which
modifies only an already-existing row, and the binary branch never
inserts one — so a freshly discovered binary url leaves the frontier
without any row in both cases. -/
theorem add_url_binary_writes_no_row :
    add_url wCfgDl wEnv [] "https://a.test/file.pdf" 1 "to_visit" none = [] ∧
    add_url wCfgNoDl wEnv [] "https://a.test/file.pdf" 1 "to_visit" none = [] := by
  constructor <;> rfl

/-- C9 witness: a url matching the (sole) exclude pattern is dropped with
no store effect; the concrete row for another url stays untouched. -/
theorem add_url_inserts_only_clean_urls_witness :
    add_url { wCfgDl with exclude_url_patterns := ["forbidden"] }
        { wEnv with reSearch := fun p u => p == "forbidden" && u == "https://a.test/forbidden" }
        [⟨"https://a.test/", 0, "visited", some "text/html", none, none⟩]
        "https://a.test/forbidden" 1 "to_visit" none
      = [⟨"https://a.test/", 0, "visited", some "text/html", none, none⟩] :=
  (add_url_inserts_only_clean_urls
      { wCfgDl with exclude_url_patterns := ["forbidden"] }
      { wEnv with reSearch := fun p u => p == "forbidden" && u == "https://a.test/forbidden" }
      [⟨"https://a.test/", 0, "visited", some "text/html", none, none⟩]
      "https://a.test/forbidden" 1 "to_visit" none (by decide)).1 (by decide)

/-- The recursive-crawl block of SiteCrawler.crawl (crawler.py lines
281-293): every anchor href of the fetched page, skipping fragments and
blank hrefs, resolved against the page url; the result is enqueued at
depth+1 only when its network location equals the seed's. -/
def processLinks (cfg : CrawlerConfig) (env : CrawlEnv) (pageUrl : String)
    (depth : Nat) (hrefs : List String) (db : Frontier) : Frontier :=
  hrefs.foldl
    (fun d href =>
      if strStartsWith href "#" || strTrim href == "" then d
      else
        let absolute := env.urljoin pageUrl href
        if env.netloc absolute == env.netloc cfg.base_url then
          add_url cfg env d absolute (depth + 1) "to_visit" none
        else d)
    db

theorem mem_update_url_status (db : Frontier) (u s : String)
    (c : Option String) (row : URLRow)
    (h : row ∈ update_url_status db u s c) :
    row ∈ db ∨ ∃ r0 ∈ db, row.url = r0.url ∧ row.depth = r0.depth := by
  induction db with
  | nil => simp [update_url_status] at h
  | cons r rest ih =>
    by_cases hr : (r.url == u) = true
    · simp only [update_url_status, hr, if_true] at h
      rcases List.mem_cons.mp h with h1 | h2
      · right
        exact ⟨r, List.mem_cons_self r rest, by rw [h1], by rw [h1]⟩
      · left
        exact List.mem_cons_of_mem r h2
    · have hr' : (r.url == u) = false := by
        cases hb : (r.url == u) with
        | false => rfl
        | true => exact absurd hb hr
      simp only [update_url_status, hr', Bool.false_eq_true, if_false] at h
      rcases List.mem_cons.mp h with h1 | h2
      · left; exact List.mem_cons.mpr (Or.inl h1)
      · rcases ih h2 with h3 | ⟨r0, hr0, he⟩
        · left; exact List.mem_cons_of_mem r h3
        · right; exact ⟨r0, List.mem_cons_of_mem r hr0, he⟩

theorem mem_add_url (cfg : CrawlerConfig) (env : CrawlEnv) (db : Frontier)
    (u : String) (dep : Nat) (s : String) (c : Option String) (row : URLRow)
    (h : row ∈ add_url cfg env db u dep s c) :
    row ∈ db ∨ row = ⟨u, dep, s, c, none, none⟩ ∨
      ∃ r0 ∈ db, row.url = r0.url ∧ row.depth = r0.depth := by
  rw [add_url] at h
  by_cases he : should_exclude_url env.reSearch u
      (asStrList (merge_settings cfg env.reSearch u dep "exclude_url_patterns")) = true
  · rw [if_pos he] at h
    exact Or.inl h
  · rw [if_neg he] at h
    by_cases hb : is_binary_url cfg.binary_extensions u = true
    · rw [if_pos hb] at h
      by_cases hd : (truthy (merge_settings cfg env.reSearch u dep "download_binaries")
          || (truthy (merge_settings cfg env.reSearch u dep "download_specific_binaries")
            && (asStrList (merge_settings cfg env.reSearch u dep
                  "download_specific_binaries")).contains (env.urlPathExt u))) = true
      · rw [if_pos hd] at h
        rcases mem_update_url_status db u _ _ row h with h1 | h2
        · exact Or.inl h1
        · exact Or.inr (Or.inr h2)
      · rw [if_neg hd] at h
        rcases mem_update_url_status db u _ _ row h with h1 | h2
        · exact Or.inl h1
        · exact Or.inr (Or.inr h2)
    · rw [if_neg hb, insert_url] at h
      by_cases ha : db.any (fun r => r.url == u) = true
      · rw [if_pos ha] at h
        exact Or.inl h
      · rw [if_neg ha] at h
        rcases List.mem_append.mp h with h1 | h2
        · exact Or.inl h1
        · exact Or.inr (Or.inl (by simpa using h2))

theorem processLinks_inv (cfg : CrawlerConfig) (env : CrawlEnv)
    (pageUrl : String) (depth : Nat) (db0 : Frontier) :
    ∀ (hrefs : List String) (d : Frontier),
      (∀ row ∈ d, (∀ r0 ∈ db0, r0.url ≠ row.url) →
        env.netloc row.url = env.netloc cfg.base_url ∧ row.depth = depth + 1) →
      ∀ row ∈ processLinks cfg env pageUrl depth hrefs d,
        (∀ r0 ∈ db0, r0.url ≠ row.url) →
        env.netloc row.url = env.netloc cfg.base_url ∧ row.depth = depth + 1 := by
  intro hrefs
  induction hrefs with
  | nil => intro d hd row hrow; exact hd row hrow
  | cons href rest ih =>
    intro d hd row hrow
    rw [processLinks, List.foldl_cons] at hrow
    by_cases hskip : (strStartsWith href "#" || strTrim href == "") = true
    · rw [if_pos hskip] at hrow
      exact ih d hd row hrow
    · rw [if_neg hskip] at hrow
      by_cases hg : (env.netloc (env.urljoin pageUrl href)
          == env.netloc cfg.base_url) = true
      · rw [if_pos hg] at hrow
        refine ih _ ?_ row hrow
        intro row2 hrow2 hfresh
        rcases mem_add_url cfg env d (env.urljoin pageUrl href) (depth + 1)
            "to_visit" none row2 hrow2 with h1 | h2 | ⟨r0, hr0, hu, hdep⟩
        · exact hd row2 h1 hfresh
        · rw [h2]
          exact ⟨by simpa using hg, rfl⟩
        · have := hd r0 hr0 (by rw [← hu]; exact hfresh)
          rw [hu, hdep]
          exact this
      · rw [if_neg hg] at hrow
        exact ih d hd row hrow

/-- C7: during recursive link discovery from a page at depth d, every row
newly enqueued (its url absent from the prior frontier) has the seed's
network location and depth d+1; no url with a different network location
is ever enqueued. -/
theorem crawl_enqueues_same_netloc_only (cfg : CrawlerConfig) (env : CrawlEnv)
    (pageUrl : String) (depth : Nat) (hrefs : List String) (db : Frontier) :
    ∀ row ∈ processLinks cfg env pageUrl depth hrefs db,
      (∀ r0 ∈ db, r0.url ≠ row.url) →
      env.netloc row.url = env.netloc cfg.base_url ∧ row.depth = depth + 1 := by
  refine processLinks_inv cfg env pageUrl depth db hrefs db ?_
  intro row hrow hfresh
  exact absurd rfl (hfresh row hrow)

/-- C7 witness environment: a constant-netloc world with root-relative
resolution against the seed host. -/
def wEnv7 : CrawlEnv :=
  { wEnv with
    netloc := fun u => if strStartsWith u "https://a.test" then "a.test" else "other",
    urljoin := fun _ href => "https://a.test" ++ href,
    hrefsOf := fun _ => ["/x"] }

/-- C7 witness: one relative anchor on an empty frontier yields exactly the
same-netloc row at depth 1. -/
theorem crawl_enqueues_same_netloc_only_witness :
    wEnv7.netloc
        (⟨"https://a.test/x", 1, "to_visit", none, none, none⟩ : URLRow).url
      = wEnv7.netloc wCfgNoDl.base_url ∧
    (⟨"https://a.test/x", 1, "to_visit", none, none, none⟩ : URLRow).depth
      = 0 + 1 :=
  crawl_enqueues_same_netloc_only wCfgNoDl wEnv7 "https://a.test/" 0 ["/x"] []
    ⟨"https://a.test/x", 1, "to_visit", none, none, none⟩ (by decide)
    (by intro r0 h; exact absurd h (List.not_mem_nil r0))

/-- SiteCrawler.is_allowed (crawler.py lines 52-55). -/
def is_allowed (cfg : CrawlerConfig) (env : CrawlEnv) (url : String) : Bool :=
  if cfg.respect_robots then env.allowed url else true

/-- Tag normalization of crawler.py lines 265-270: name of each tag,
forward slashes removed, joined with a comma-space. -/
def tagsJoin (tags : List TagVal) : String :=
  String.intercalate ", "
    (tags.map (fun t => String.mk ((tagName t).data.filter (fun ch => ch ≠ '/'))))

structure CrawlState where
  db : Frontier
  visited : List String
deriving DecidableEq, Repr

/-- One iteration of the `while True` body of SiteCrawler.crawl (crawler.py
lines 221-295); `none` is the `break` when the frontier is exhausted.
The find_images block and the binary download touch only the filesystem,
so they are invisible in this state transformer. -/
def crawl_step (cfg : CrawlerConfig) (env : CrawlEnv) (st : CrawlState) :
    Option CrawlState :=
  match get_next_url st.db cfg.max_depth with
  | none => none
  | some (url, depth) =>
    if should_exclude_url env.reSearch url
        (asStrList (merge_settings cfg env.reSearch url depth
          "exclude_url_patterns")) then
      some ⟨update_url_status st.db url "ignored" none, st.visited⟩
    else if is_binary_url cfg.binary_extensions url then
      some st
    else if !is_allowed cfg env url then
      some ⟨update_url_status st.db url "ignored" none, st.visited⟩
    else
      match env.fetch url with
      | none => some ⟨update_url_status st.db url "ignored" none, st.visited⟩
      | some ctHeader =>
        let content_type := strTrim (String.mk (takeUntilSemi ctHeader.data))
        if !(cfg.accepted_content_types.contains content_type) then
          some ⟨update_url_status st.db url "ignored" (some content_type), st.visited⟩
        else
          let db1 := update_url_status st.db url "visited" (some content_type)
          let visited1 := st.visited ++ [url]
          if hasSub "html".data (lowerStr content_type).data then
            let s := env.summarize url
            let db2 := update_page_info db1 url s.1 (tagsJoin s.2)
            let db3 :=
              if cfg.recursive_crawl then
                processLinks cfg env url depth (env.hrefsOf url) db2
              else db2
            some ⟨db3, visited1⟩
          else some ⟨db1, visited1⟩

/-- n iterations of the crawl loop; `none` once the loop has exited. -/
def crawl_iter (cfg : CrawlerConfig) (env : CrawlEnv) :
    Nat → CrawlState → Option CrawlState
  | 0, st => some st
  | n+1, st =>
    match crawl_step cfg env st with
    | none => none
    | some st2 => crawl_iter cfg env n st2

theorem pickMinDepth_mem : ∀ (l : Frontier) (r : URLRow),
    pickMinDepth l = some r → r ∈ l := by
  intro l
  induction l with
  | nil => intro r h; exact absurd h (by simp [pickMinDepth])
  | cons x xs ih =>
    intro r h
    rw [pickMinDepth] at h
    cases hp : pickMinDepth xs with
    | none =>
      rw [hp] at h
      have h' : some x = some r := h
      simp only [Option.some.injEq] at h'
      rw [← h']
      exact List.mem_cons_self x xs
    | some b =>
      rw [hp] at h
      have h' : (if b.depth < x.depth then some b else some x) = some r := h
      by_cases hc : b.depth < x.depth
      · rw [if_pos hc] at h'
        simp only [Option.some.injEq] at h'
        rw [← h']
        exact List.mem_cons_of_mem x (ih b hp)
      · rw [if_neg hc] at h'
        simp only [Option.some.injEq] at h'
        rw [← h']
        exact List.mem_cons_self x xs

theorem pickMinDepth_eq_none : ∀ (l : Frontier), pickMinDepth l = none → l = [] := by
  intro l h
  cases l with
  | nil => rfl
  | cons x xs =>
    rw [pickMinDepth] at h
    cases hp : pickMinDepth xs with
    | none =>
      rw [hp] at h
      exact absurd (show some x = none from h) (by simp)
    | some b =>
      rw [hp] at h
      have h' : (if b.depth < x.depth then some b else some x) = none := h
      by_cases hc : b.depth < x.depth
      · rw [if_pos hc] at h'; exact absurd h' (by simp)
      · rw [if_neg hc] at h'; exact absurd h' (by simp)

theorem pickMinDepth_unique_min : ∀ (l : Frontier) (r : URLRow), r ∈ l →
    (∀ x ∈ l, x ≠ r → r.depth < x.depth) → pickMinDepth l = some r := by
  intro l
  induction l with
  | nil => intro r hmem; exact absurd hmem (List.not_mem_nil r)
  | cons x xs ih =>
    intro r hmem hmin
    rw [pickMinDepth]
    cases hp : pickMinDepth xs with
    | none =>
      have hxs : xs = [] := pickMinDepth_eq_none xs hp
      subst hxs
      have hx : r = x := by simpa using hmem
      show some x = some r
      rw [hx]
    | some b =>
      have hbmem : b ∈ xs := pickMinDepth_mem xs b hp
      show (if b.depth < x.depth then some b else some x) = some r
      by_cases hbr : b = r
      · subst hbr
        by_cases hc : b.depth < x.depth
        · rw [if_pos hc]
        · rw [if_neg hc]
          by_cases hxb : x = b
          · rw [hxb]
          · exact absurd (hmin x (List.mem_cons_self x xs) hxb) hc
      · have hrb : r.depth < b.depth :=
          hmin b (List.mem_cons_of_mem x hbmem) hbr
        rcases List.mem_cons.mp hmem with hx | hxs
        · have hc : ¬ b.depth < x.depth := by rw [← hx]; omega
          rw [if_neg hc, ← hx]
        · have := ih r hxs (fun y hy hyr => hmin y (List.mem_cons_of_mem x hy) hyr)
          rw [this] at hp
          simp only [Option.some.injEq] at hp
          exact absurd hp.symm hbr

theorem get_next_url_unique (db : Frontier) (maxd : Nat) (r : URLRow)
    (hmem : r ∈ db) (hstat : r.status = "to_visit") (hdep : r.depth ≤ maxd)
    (hmin : ∀ x ∈ db, x.status = "to_visit" → x.depth ≤ maxd → x ≠ r →
      r.depth < x.depth) :
    get_next_url db maxd = some (r.url, r.depth) := by
  have hr : r ∈ db.filter (fun t => t.status == "to_visit" && t.depth ≤ maxd) := by
    refine List.mem_filter.mpr ⟨hmem, ?_⟩
    simp [hstat, hdep]
  have hmin' : ∀ x ∈ db.filter (fun t => t.status == "to_visit" && t.depth ≤ maxd),
      x ≠ r → r.depth < x.depth := by
    intro x hx hxr
    rcases List.mem_filter.mp hx with ⟨hx1, hx2⟩
    simp only [Bool.and_eq_true, beq_iff_eq, decide_eq_true_eq] at hx2
    exact hmin x hx1 hx2.1 hx2.2 hxr
  rw [get_next_url, pickMinDepth_unique_min _ r hr hmin']
  rfl

/-- C10: a frontier row that is `to_visit`, within the depth bound, is the
(strictly) shallowest such row, has a binary-suffixed url and matches no
effective exclude pattern, is dequeued, skipped with no state change, and
dequeued again on the next iteration: the loop never exits and the state
never changes, for any number of iterations. -/
theorem binary_row_livelock (cfg : CrawlerConfig) (env : CrawlEnv)
    (db : Frontier) (visited : List String) (r : URLRow)
    (hmem : r ∈ db) (hstat : r.status = "to_visit")
    (hdep : r.depth ≤ cfg.max_depth)
    (hmin : ∀ x ∈ db, x.status = "to_visit" → x.depth ≤ cfg.max_depth →
      x ≠ r → r.depth < x.depth)
    (hbin : is_binary_url cfg.binary_extensions r.url = true)
    (hexcl : should_exclude_url env.reSearch r.url
      (asStrList (merge_settings cfg env.reSearch r.url r.depth
        "exclude_url_patterns")) = false) :
    crawl_step cfg env ⟨db, visited⟩ = some ⟨db, visited⟩ ∧
    ∀ n, crawl_iter cfg env n ⟨db, visited⟩ = some ⟨db, visited⟩ := by
  have hdq : get_next_url db cfg.max_depth = some (r.url, r.depth) :=
    get_next_url_unique db cfg.max_depth r hmem hstat hdep hmin
  have hstep : crawl_step cfg env ⟨db, visited⟩ = some ⟨db, visited⟩ := by
    rw [crawl_step]
    simp only [hdq, hexcl, Bool.false_eq_true, if_false, hbin, if_true]
  refine ⟨hstep, ?_⟩
  intro n
  induction n with
  | zero => rfl
  | succ m ihm =>
    rw [crawl_iter, hstep]
    exact ihm

/-- C10 witness: a single persisted binary row at depth 1 makes the loop
spin in place; after five iterations nothing has changed and the loop has
not exited. -/
theorem binary_row_livelock_witness :
    crawl_iter wCfgNoDl wEnv 5
        ⟨[⟨"https://a.test/file.pdf", 1, "to_visit", none, none, none⟩], []⟩
      = some ⟨[⟨"https://a.test/file.pdf", 1, "to_visit", none, none, none⟩], []⟩ :=
  (binary_row_livelock wCfgNoDl wEnv
      [⟨"https://a.test/file.pdf", 1, "to_visit", none, none, none⟩] []
      ⟨"https://a.test/file.pdf", 1, "to_visit", none, none, none⟩
      (by decide) rfl (by decide)
      (by intro x hx h1 h2 hne
          exact absurd (List.mem_singleton.mp hx) hne)
      (by decide) (by decide)).2 5

/-
SiteCrawler.get_summary_and_tags (crawler.py lines 144-209).  One request
attempt either times out (httpx.TimeoutException), raises otherwise (any
other exception, including raise_for_status on a non-2xx and a failing
response.json()), or returns a decoded JSON body with an optional
top-level error field and a possibly-empty choices list, of which only
each choice's message content string matters.  json.loads of the
fence-stripped content is the abstract `parse` collaborator; a parse
failure raises, landing in the generic except.
-/

structure LLMJson where
  hasError : Bool
  choices : List String
deriving DecidableEq, Repr

inductive LLMAttempt where
  | timeout
  | exn
  | ok (j : LLMJson)
deriving DecidableEq, Repr

structure ParsedDoc where
  summary : Option String
  tags : Option (List String)
deriving DecidableEq, Repr

inductive LLMAction where
  | req
  | sleep2
deriving DecidableEq, Repr

/-- The fence stripping of crawler.py lines 195-198. -/
def fenceStrip (c : String) : String :=
  let c1 := if strStartsWith c "```json" then strTrim (strDrop c 7) else c
  if strEndsWith c1 "```" then strTrim (strDropRight c1 3) else c1

/-- What a single non-timed-out attempt returns (crawler.py lines 185-202
after raise_for_status): a top-level error field, an empty or missing
choices list, or a failing json.loads of the fence-stripped content each
yield the empty result; otherwise summary and tags are read with defaults
"" and []. -/
def attemptResult (parse : String → Option ParsedDoc) :
    LLMAttempt → String × List String
  | .timeout => ("", [])
  | .exn => ("", [])
  | .ok d =>
    if d.hasError then ("", [])
    else
      match d.choices with
      | [] => ("", [])
      | c :: _ =>
        match parse (fenceStrip c) with
        | none => ("", [])
        | some doc => (doc.summary.getD "", doc.tags.getD [])

/-- The `for attempt in range(retries)` loop of crawler.py lines 178-209,
recursing on the remaining attempts: a timeout sleeps 2 seconds and
retries, anything else ends the loop; the trace records each HTTP request
and each `time.sleep(2)`. -/
def gstAux (env : Nat → LLMAttempt) (parse : String → Option ParsedDoc) :
    Nat → Nat → (String × List String) × List LLMAction
  | _, 0 => (("", []), [])
  | idx, rem+1 =>
    match env idx with
    | .timeout =>
      let rest := gstAux env parse (idx+1) rem
      (rest.1, .req :: .sleep2 :: rest.2)
    | a => (attemptResult parse a, [.req])

/-- get_summary_and_tags with `retries = 3` as in the source. -/
def get_summary_and_tags (env : Nat → LLMAttempt)
    (parse : String → Option ParsedDoc) :
    (String × List String) × List LLMAction :=
  gstAux env parse 0 3

/-- Trace of k timed-out attempts followed by one final attempt. -/
def traceOf : Nat → List LLMAction
  | 0 => [.req]
  | n+1 => .req :: .sleep2 :: traceOf n

theorem gstAux_timeout (env : Nat → LLMAttempt)
    (parse : String → Option ParsedDoc) (idx rem : Nat)
    (h : env idx = .timeout) :
    gstAux env parse idx (rem+1)
      = ((gstAux env parse (idx+1) rem).1,
         .req :: .sleep2 :: (gstAux env parse (idx+1) rem).2) := by
  rw [gstAux, h]

theorem gstAux_terminal (env : Nat → LLMAttempt)
    (parse : String → Option ParsedDoc) (idx rem : Nat)
    (h : env idx ≠ .timeout) :
    gstAux env parse idx (rem+1) = (attemptResult parse (env idx), [.req]) := by
  cases he : env idx with
  | timeout => exact absurd he h
  | exn => rw [gstAux, he]
  | ok d => rw [gstAux, he]

theorem gst_first_terminal (env : Nat → LLMAttempt)
    (parse : String → Option ParsedDoc) :
    ∀ k, k < 3 → (∀ j, j < k → env j = .timeout) → env k ≠ .timeout →
      get_summary_and_tags env parse
        = (attemptResult parse (env k), traceOf k) := by
  intro k hk hpre hterm
  rcases k with _ | _ | _ | k4
  · exact gstAux_terminal env parse 0 2 hterm
  · have h0 := hpre 0 (by omega)
    show gstAux env parse 0 3 = _
    rw [gstAux_timeout env parse 0 2 h0, gstAux_terminal env parse 1 1 hterm]
    rfl
  · have h0 := hpre 0 (by omega)
    have h1 := hpre 1 (by omega)
    show gstAux env parse 0 3 = _
    rw [gstAux_timeout env parse 0 2 h0, gstAux_timeout env parse 1 1 h1,
      gstAux_terminal env parse 2 0 hterm]
    rfl
  · omega

theorem gst_all_timeout (env : Nat → LLMAttempt)
    (parse : String → Option ParsedDoc) (h : ∀ j, j < 3 → env j = .timeout) :
    get_summary_and_tags env parse
      = (("", []), [.req, .sleep2, .req, .sleep2, .req, .sleep2]) := by
  have h0 := h 0 (by omega)
  have h1 := h 1 (by omega)
  have h2 := h 2 (by omega)
  show gstAux env parse 0 3 = _
  rw [gstAux_timeout env parse 0 2 h0, gstAux_timeout env parse 1 1 h1,
    gstAux_timeout env parse 2 0 h2]
  rfl

/-- C8: at most 3 request attempts in total; a further attempt is made only
after a timeout; the 2-second sleeps are exactly the timeouts among the
attempts made; a non-timeout exception at the first non-timed-out attempt
aborts at once with the empty result; a decoded response with a top-level
error field, no choices, or fence-stripped content that fails to parse
also yields the empty result; three timeouts exhaust the loop with the
empty result. -/
theorem get_summary_and_tags_retry_policy (env : Nat → LLMAttempt)
    (parse : String → Option ParsedDoc) :
    ((get_summary_and_tags env parse).2.count .req ≤ 3) ∧
    (∀ k, k + 1 < (get_summary_and_tags env parse).2.count .req →
      env k = .timeout) ∧
    ((get_summary_and_tags env parse).2.count .sleep2
      = (List.range ((get_summary_and_tags env parse).2.count .req)).countP
          (fun j => decide (env j = .timeout))) ∧
    (∀ k, k < 3 → (∀ j, j < k → env j = .timeout) → env k = .exn →
      (get_summary_and_tags env parse).1 = ("", []) ∧
      (get_summary_and_tags env parse).2.count .req = k + 1) ∧
    (∀ k, k < 3 → (∀ j, j < k → env j = .timeout) → ∀ d, env k = .ok d →
      (d.hasError = true ∨ d.choices = [] ∨
        (∃ c rest, d.choices = c :: rest ∧ parse (fenceStrip c) = none)) →
      (get_summary_and_tags env parse).1 = ("", [])) ∧
    ((∀ j, j < 3 → env j = .timeout) →
      (get_summary_and_tags env parse).1 = ("", []) ∧
      (get_summary_and_tags env parse).2.count .req = 3) := by
  have hbad : ∀ d, d.hasError = true ∨ d.choices = [] ∨
      (∃ c rest, d.choices = c :: rest ∧ parse (fenceStrip c) = none) →
      attemptResult parse (.ok d) = ("", []) := by
    intro d hd
    rcases hd with h1 | h2 | ⟨c, rest, hc, hp⟩
    · simp [attemptResult, h1]
    · simp [attemptResult, h2]
    · simp [attemptResult, hc, hp]
  by_cases h0 : env 0 = .timeout
  · by_cases h1 : env 1 = .timeout
    · by_cases h2 : env 2 = .timeout
      · -- all three attempts time out
        have hout := gst_all_timeout env parse
          (by intro j hj
              rcases j with _ | _ | _ | j4
              · exact h0
              · exact h1
              · exact h2
              · omega)
        have hfst : (get_summary_and_tags env parse).1 = ("", []) := by rw [hout]
        have hsnd : (get_summary_and_tags env parse).2
            = [.req, .sleep2, .req, .sleep2, .req, .sleep2] := by rw [hout]
        refine ⟨?_, ?_, ?_, ?_, ?_, ?_⟩
        · rw [hsnd]; decide
        · intro k hk
          rw [hsnd] at hk
          have hc : ([LLMAction.req, .sleep2, .req, .sleep2, .req, .sleep2].count
              LLMAction.req) = 3 := by decide
          rw [hc] at hk
          rcases k with _ | _ | k3
          · exact h0
          · exact h1
          · omega
        · rw [hsnd]
          have e0 : decide (env 0 = LLMAttempt.timeout) = true := by simp [h0]
          have e1 : decide (env 1 = LLMAttempt.timeout) = true := by simp [h1]
          have e2 : decide (env 2 = LLMAttempt.timeout) = true := by simp [h2]
          have hc : ([LLMAction.req, .sleep2, .req, .sleep2, .req, .sleep2].count
              LLMAction.req) = 3 := by decide
          have hs : ([LLMAction.req, .sleep2, .req, .sleep2, .req, .sleep2].count
              LLMAction.sleep2) = 3 := by decide
          have hr : List.range 3 = [0, 1, 2] := by decide
          rw [hc, hs, hr]
          simp [List.countP_cons, e0, e1, e2]
        · intro k hk hpre hex
          rcases k with _ | _ | _ | k4
          · exact absurd (h0.symm.trans hex) (by simp)
          · exact absurd (h1.symm.trans hex) (by simp)
          · exact absurd (h2.symm.trans hex) (by simp)
          · omega
        · intro k hk hpre d hok hd
          rcases k with _ | _ | _ | k4
          · exact absurd (h0.symm.trans hok) (by simp)
          · exact absurd (h1.symm.trans hok) (by simp)
          · exact absurd (h2.symm.trans hok) (by simp)
          · omega
        · intro _
          refine ⟨hfst, ?_⟩
          rw [hsnd]; decide
      · -- attempts 0 and 1 time out, attempt 2 does not
        have hout := gst_first_terminal env parse 2 (by omega)
          (by intro j hj
              rcases j with _ | _ | j3
              · exact h0
              · exact h1
              · omega) h2
        have hfst : (get_summary_and_tags env parse).1
            = attemptResult parse (env 2) := by rw [hout]
        have hsnd : (get_summary_and_tags env parse).2 = traceOf 2 := by rw [hout]
        refine ⟨?_, ?_, ?_, ?_, ?_, ?_⟩
        · rw [hsnd]; decide
        · intro k hk
          rw [hsnd] at hk
          have hc : ((traceOf 2).count LLMAction.req) = 3 := by decide
          rw [hc] at hk
          rcases k with _ | _ | k3
          · exact h0
          · exact h1
          · omega
        · rw [hsnd]
          have e0 : decide (env 0 = LLMAttempt.timeout) = true := by simp [h0]
          have e1 : decide (env 1 = LLMAttempt.timeout) = true := by simp [h1]
          have e2 : decide (env 2 = LLMAttempt.timeout) = false := by simp [h2]
          have hc : ((traceOf 2).count LLMAction.req) = 3 := by decide
          have hs : ((traceOf 2).count LLMAction.sleep2) = 2 := by decide
          have hr : List.range 3 = [0, 1, 2] := by decide
          rw [hc, hs, hr]
          simp [List.countP_cons, e0, e1, e2]
        · intro k hk hpre hex
          rcases k with _ | _ | _ | k4
          · exact absurd (h0.symm.trans hex) (by simp)
          · exact absurd (h1.symm.trans hex) (by simp)
          · refine ⟨by simp [hfst, hex, attemptResult], ?_⟩
            rw [hsnd]; decide
          · omega
        · intro k hk hpre d hok hd
          rcases k with _ | _ | _ | k4
          · exact absurd (h0.symm.trans hok) (by simp)
          · exact absurd (h1.symm.trans hok) (by simp)
          · rw [hfst, hok]
            exact hbad d hd
          · omega
        · intro hall
          exact absurd (hall 2 (by omega)) h2
    · -- attempt 0 times out, attempt 1 does not
      have hout := gst_first_terminal env parse 1 (by omega)
        (by intro j hj
            rcases j with _ | j2
            · exact h0
            · omega) h1
      have hfst : (get_summary_and_tags env parse).1
          = attemptResult parse (env 1) := by rw [hout]
      have hsnd : (get_summary_and_tags env parse).2 = traceOf 1 := by rw [hout]
      refine ⟨?_, ?_, ?_, ?_, ?_, ?_⟩
      · rw [hsnd]; decide
      · intro k hk
        rw [hsnd] at hk
        have hc : ((traceOf 1).count LLMAction.req) = 2 := by decide
        rw [hc] at hk
        rcases k with _ | k2
        · exact h0
        · omega
      · rw [hsnd]
        have e0 : decide (env 0 = LLMAttempt.timeout) = true := by simp [h0]
        have e1 : decide (env 1 = LLMAttempt.timeout) = false := by simp [h1]
        have hc : ((traceOf 1).count LLMAction.req) = 2 := by decide
        have hs : ((traceOf 1).count LLMAction.sleep2) = 1 := by decide
        have hr : List.range 2 = [0, 1] := by decide
        rw [hc, hs, hr]
        simp [List.countP_cons, e0, e1]
      · intro k hk hpre hex
        rcases k with _ | _ | k3
        · exact absurd (h0.symm.trans hex) (by simp)
        · refine ⟨by simp [hfst, hex, attemptResult], ?_⟩
          rw [hsnd]; decide
        · have := hpre 1 (by omega)
          exact absurd this h1
      · intro k hk hpre d hok hd
        rcases k with _ | _ | k3
        · exact absurd (h0.symm.trans hok) (by simp)
        · rw [hfst, hok]
          exact hbad d hd
        · have := hpre 1 (by omega)
          exact absurd this h1
      · intro hall
        exact absurd (hall 1 (by omega)) h1
  · -- attempt 0 does not time out
    have hout := gst_first_terminal env parse 0 (by omega)
      (by intro j hj; omega) h0
    have hfst : (get_summary_and_tags env parse).1
        = attemptResult parse (env 0) := by rw [hout]
    have hsnd : (get_summary_and_tags env parse).2 = traceOf 0 := by rw [hout]
    refine ⟨?_, ?_, ?_, ?_, ?_, ?_⟩
    · rw [hsnd]; decide
    · intro k hk
      rw [hsnd] at hk
      have hc : ((traceOf 0).count LLMAction.req) = 1 := by decide
      rw [hc] at hk
      omega
    · rw [hsnd]
      have e0 : decide (env 0 = LLMAttempt.timeout) = false := by simp [h0]
      have hc : ((traceOf 0).count LLMAction.req) = 1 := by decide
      have hs : ((traceOf 0).count LLMAction.sleep2) = 0 := by decide
      have hr : List.range 1 = [0] := by decide
      rw [hc, hs, hr]
      simp [List.countP_cons, e0]
    · intro k hk hpre hex
      rcases k with _ | k2
      · refine ⟨by simp [hfst, hex, attemptResult], ?_⟩
        rw [hsnd]; decide
      · have := hpre 0 (by omega)
        exact absurd this h0
    · intro k hk hpre d hok hd
      rcases k with _ | k2
      · rw [hfst, hok]
        exact hbad d hd
      · have := hpre 0 (by omega)
        exact absurd this h0
    · intro hall
      exact absurd (hall 0 (by omega)) h0

/-- C8 witness: a timeout followed by a non-timeout exception aborts on the
second attempt with the empty result. -/
theorem get_summary_and_tags_retry_policy_witness :
    (get_summary_and_tags
        (fun k => if k == 0 then .timeout else .exn) (fun _ => none)).1
      = ("", []) ∧
    (get_summary_and_tags
        (fun k => if k == 0 then .timeout else .exn) (fun _ => none)).2.count
        .req = 1 + 1 :=
  (get_summary_and_tags_retry_policy
      (fun k => if k == 0 then .timeout else .exn) (fun _ => none)).2.2.2.1
    1 (by omega)
    (by intro j hj
        have : j = 0 := by omega
        rw [this]
        rfl)
    rfl

end Safarnama
